import Mathlib

/-!
Verification of the lineage resolution engine of `react-flow-dbt-lineage`.

The development shallowly embeds the Python sources:

* `src/lineage_tool/parser.py` (`GreenplumLineageParser`) — namespace `LineageTool`;
* `src/public/LineageParser.py` (`LineageParser`, the dbt-manifest variant) —
  namespace `PublicDbt`;
* `src/lineage_tool/dialects/greenplum.py` (the `Greenplum` sqlglot dialect) and
  `src/tests/greenplum/GreenplumDialect.py` (the alternate dialect used by the
  test suite) — namespace `GpDialect`.

Python strings are Lean `String`s; Python dicts are association lists looked up
front-first (entries are consed on insertion, so the most recent binding wins,
matching dict overwrite semantics); Python sets are `Finset String` or
deduplicated lists; fallible code returns `Except`/`Option`.
-/

namespace StrUtil

/-- The splitter underlying `s.split('.')`: walk the characters, cutting at
every dot.  Always returns at least one (possibly empty) segment. -/
def splitDotAux : List Char → List Char → List (List Char)
  | [], acc => [acc.reverse]
  | c :: cs, acc =>
      if c = '.' then acc.reverse :: splitDotAux cs [] else splitDotAux cs (c :: acc)

/-- Python `s.split('.')`. -/
def splitDot (s : String) : List String :=
  (splitDotAux s.data []).map (fun l => ⟨l⟩)

/-- Python `s.split('.')[-1]`: the final dot-separated segment. -/
def lastDotSeg (s : String) : String := (splitDot s).getLastD ""

/-- Python `s.upper()` restricted to ASCII, as used on identifier names. -/
def upperStr (s : String) : String := ⟨s.data.map Char.toUpper⟩

/-- Python `s.lower()` restricted to ASCII, as used on identifier names. -/
def lowerStr (s : String) : String := ⟨s.data.map Char.toLower⟩

/-- Python `".".join(parts)`. -/
def joinDot : List String → String
  | [] => ""
  | [p] => p
  | p :: ps => p ++ "." ++ joinDot ps

/-- Code-point comparison of character lists, the order Python's `sorted`
uses on strings. -/
def lexLeChars : List Char → List Char → Bool
  | [], _ => true
  | _ :: _, [] => false
  | c :: cs, d :: ds =>
      if c.toNat < d.toNat then true
      else if d.toNat < c.toNat then false
      else lexLeChars cs ds

/-- Python's `<=` on strings (lexicographic by code point). -/
def strLeB (a b : String) : Bool := lexLeChars a.data b.data

/-- Insert a string into a list kept ascending for `strLeB`. -/
def insertStr (x : String) : List String → List String
  | [] => [x]
  | y :: ys => if strLeB x y then x :: y :: ys else y :: insertStr x ys

/-- Python `sorted(...)` on a list of strings (insertion sort; the order is
total, so the result agrees with any stable sort). -/
def sortStrs : List String → List String
  | [] => []
  | x :: xs => insertStr x (sortStrs xs)

/-- Python `dict.get(k)` over an association list whose most recent binding
is at the head. -/
def lookupStr (k : String) : List (String × String) → Option String
  | [] => none
  | (a, v) :: rest => if a = k then some v else lookupStr k rest

/-- `dict.get` for alias→column-set maps. -/
def lookupCols (k : String) : List (String × List String) → Option (List String)
  | [] => none
  | (a, v) :: rest => if a = k then some v else lookupCols k rest

end StrUtil

namespace LineageTool

open StrUtil

/-- A sqlglot `exp.Table` as consumed by `_get_table_fqn`: `table.catalog` and
`table.db` are the (possibly empty) catalog/schema texts, `table.this.name`
the table identifier. -/
structure TableExpr where
  catalog : String
  db : String
  name : String
deriving DecidableEq

/-- Python `s or d` where `s` is a string and `d` an optional string: the
empty string is falsy and falls through to the default. -/
def pyOrStr (s : String) (d : Option String) : Option String :=
  if s = "" then d else some s

/-- The list comprehension in `_get_table_fqn`:
`[part for part in [catalog, schema, table] if part]` (dropping `None` and
empty strings). -/
def fqnParts (t : TableExpr) (defaultDb defaultSchema : Option String) : List String :=
  (([pyOrStr t.catalog defaultDb, pyOrStr t.db defaultSchema, some t.name]).filterMap id).filter
    (fun p => p ≠ "")

/-- `GreenplumLineageParser._get_table_fqn`: resolve catalog/schema against the
defaults, drop absent parts, join with dots. -/
def getTableFqn (t : TableExpr) (defaultDb defaultSchema : Option String) : String :=
  joinDot (fqnParts t defaultDb defaultSchema)

/-- Modelled from the spec (§4.3 data model / §4.4 base case): the TableFQN as
the spec words it — use the expression's own catalog/schema if present, else
the defaults, and join the parts that exist, with no padding to a fixed
arity.  This is the spec-side definition compared against `getTableFqn`. -/
def specFqn (t : TableExpr) (defaultDb defaultSchema : Option String) : String :=
  let cat : Option String := if t.catalog ≠ "" then some t.catalog else defaultDb
  let sch : Option String := if t.db ≠ "" then some t.db else defaultSchema
  joinDot (cat.toList ++ sch.toList ++ [t.name])

/-- Classification of a `sqlglot.lineage.Node`'s `expression` as inspected by
`_trace_lineage_recursively`: either it is an `exp.Table` or it is any other
expression (`isinstance(parent_node.expression, exp.Table)`). -/
inductive NodeExpr where
  | table (t : TableExpr)
  | other
deriving DecidableEq

/-- A `sqlglot.lineage.Node`: a name, the classified expression, and the
`downstream` edges. -/
inductive LinNode where
  | mk (name : String) (expr : NodeExpr) (downstream : List LinNode)

/-- The `name` field of a node. -/
def LinNode.name : LinNode → String
  | .mk n _ _ => n

/-- The `expression` field of a node. -/
def LinNode.expr : LinNode → NodeExpr
  | .mk _ e _ => e

/-- The `downstream` field of a node. -/
def LinNode.downstream : LinNode → List LinNode
  | .mk _ _ ds => ds

mutual

/-- `GreenplumLineageParser._trace_lineage_recursively`: walk the `downstream`
edges; a parent whose expression is an `exp.Table` terminates its path with
`"FQN.column"` (column = final dot segment of the parent's name); any other
parent is traced further and its results unioned in.  The Python `set` of
sources is represented by a list read up to duplicates (deduplicated where
the code materialises it with `sorted(list(...))`). -/
def traceRec (defaultDb defaultSchema : Option String) : LinNode → List String
  | .mk _ _ ds => traceRecList defaultDb defaultSchema ds

/-- The `for parent_node in lineage_node.downstream` loop of
`_trace_lineage_recursively`. -/
def traceRecList (defaultDb defaultSchema : Option String) : List LinNode → List String
  | [] => []
  | p :: rest =>
      (match p.expr with
        | .table t => [getTableFqn t defaultDb defaultSchema ++ "." ++ lastDotSeg p.name]
        | .other => traceRec defaultDb defaultSchema p) ++
        traceRecList defaultDb defaultSchema rest

end

/-- A top-level statement, as far as `generate_lineage` and
`_find_default_schema` discriminate them: a `SET <var> = <value>` whose
single item is an equality (the shape sqlglot gives `SET search_path TO x`),
a `CREATE TABLE ... AS ...` statement, or anything else. -/
inductive TopStmt where
  | setStmt (varName : String) (value : String)
  | createStmt (idx : Nat)
  | otherStmt
deriving DecidableEq

/-- `GreenplumLineageParser._find_default_schema`: scan the statements in
order and return the right-hand side of the first `SET` whose variable name
uppercases to `SEARCH_PATH`. -/
def findDefaultSchema : List TopStmt → Option String
  | [] => none
  | .setStmt v value :: rest =>
      if upperStr v = "SEARCH_PATH" then some value else findDefaultSchema rest
  | _ :: rest => findDefaultSchema rest

/-- Whether a statement matches `_find_default_schema`'s pattern. -/
def isSearchPathSet : TopStmt → Bool
  | .setStmt v _ => upperStr v = "SEARCH_PATH"
  | _ => false

/-- A CTE definition inside an optimized select: its alias and the table
references occurring in its body. -/
structure CteDef where
  aliasName : String
  tables : List TableExpr
deriving DecidableEq

/-- The parts of the optimized select tree that `_process_create_statement`
inspects: `find_all(exp.CTE)` yields `ctes`, and `find_all(exp.Table)` yields
every table reference of the main body and of every CTE body. -/
structure OptSelect where
  ctes : List CteDef
  mainTables : List TableExpr
  selects : List String

/-- `optimized_select.find_all(exp.Table)`: all table references, including
those inside CTE bodies. -/
def OptSelect.allTables (o : OptSelect) : List TableExpr :=
  o.mainTables ++ o.ctes.flatMap (fun c => c.tables)

/-- `{cte.alias for cte in optimized_select.find_all(exp.CTE)}`. -/
def OptSelect.cteNames (o : OptSelect) : List String :=
  o.ctes.map (fun c => c.aliasName)

/-- The `dependencies` set comprehension of `_process_create_statement`:
FQNs of all tables in the optimized tree whose name is not a CTE alias,
emitted as `sorted(list(...))`. -/
def dependsOn (o : OptSelect) (defaultDb defaultSchema : Option String) : List String :=
  sortStrs
    (((o.allTables.filter (fun t => t.name ∉ o.cteNames)).map
        (fun t => getTableFqn t defaultDb defaultSchema)).dedup)

/-- A base table transitively reachable from the statement's main select
through its CTE chains: either referenced directly by the main body, or
referenced by the body of a CTE that is itself reachable via a reference
bearing its alias. -/
inductive InScope (o : OptSelect) : TableExpr → Prop where
  | ofMain {t : TableExpr} : t ∈ o.mainTables → InScope o t
  | ofCte {r t : TableExpr} {c : CteDef} :
      InScope o r → c ∈ o.ctes → r.name = c.aliasName → t ∈ c.tables → InScope o t

/-- The per-column loop of `_process_create_statement`: each select alias is
traced by the external lineage builder plus `_trace_lineage_recursively`
(modelled together as `colTrace`, which may fail); failures append an error
message keyed by the target FQN, successes with a non-empty source set are
recorded as sorted lists. -/
def processColumns (targetFqn : String) (colTrace : String → Except String (List String)) :
    List String → List (String × List String) × List (String × String)
  | [] => ([], [])
  | c :: rest =>
      let acc := processColumns targetFqn colTrace rest
      match colTrace c with
      | .ok s =>
          if s = [] then acc
          else ((c, sortStrs s.dedup) :: acc.1, acc.2)
      | .error e =>
          (acc.1, (targetFqn, "Could not trace column " ++ c ++ ": " ++ e) :: acc.2)

/-- One table's entry in the lineage map. -/
structure TableEntry where
  dependsOn : List String
  columns : List (String × List String)

/-- The whole lineage report (`_build_final_output` without the timestamp).
Errors are kept as `(key, message)` pairs in insertion order. -/
structure Report where
  errors : List (String × List String)
  lineage : List (String × TableEntry)

/-- `_process_create_statement` for one `CREATE TABLE <target> AS <select>`:
on optimizer failure one error under the target FQN and no lineage entry;
on success the `depends_on` set and the per-column loop. The external
qualify/optimize pass and the external per-column lineage builder are inputs
(`opt`, `colTrace`). -/
def processCreateStatement (targetFqn : String) (opt : Except String OptSelect)
    (colTrace : String → Except String (List String))
    (defaultDb defaultSchema : Option String) :
    Option (String × TableEntry) × List (String × String) :=
  match opt with
  | .error e => (none, [(targetFqn, "Could not analyze statement: " ++ e)])
  | .ok o =>
      let deps := dependsOn o defaultDb defaultSchema
      let cols := processColumns targetFqn colTrace o.selects
      (some (targetFqn, ⟨deps, cols.1⟩), cols.2)

/-- Group flat `(key, message)` error pairs into the per-key message-list map
(`self.errors.setdefault(key, []).append(msg)`), preserving order. -/
def groupErrors : List (String × String) → List (String × List String)
  | [] => []
  | (k, m) :: rest =>
      let g := groupErrors rest
      match g.find? (fun p => p.1 = k) with
      | some _ => g.map (fun p => if p.1 = k then (p.1, m :: p.2) else p)
      | none => (k, [m]) :: g

/-- `GreenplumLineageParser.generate_lineage`: parse the whole script (the
external `sqlglot.parse`, whose outcome is the `parsed` input); on failure
reset the error map to exactly one `"script"` entry and return an empty
lineage map; on success find the default schema, then process every CREATE
TABLE statement, merging entries and errors. Per-statement analysis of
statement `i` is given by `analyzeStmt i` (it packages the external optimizer
and lineage-builder calls for that statement). -/
def generateLineage (parsed : Except String (List TopStmt))
    (firstCatalog : Option String)
    (analyzeStmt : Nat → String × Except String OptSelect × (String → Except String (List String))) :
    Report :=
  match parsed with
  | .error e =>
      { errors := [("script", ["Failed to parse the entire SQL script: " ++ e])],
        lineage := [] }
  | .ok exprs =>
      let defaultSchema := findDefaultSchema exprs
      let step := fun (acc : List (String × TableEntry) × List (String × String)) (s : TopStmt) =>
        match s with
        | .createStmt i =>
            let a := analyzeStmt i
            let r := processCreateStatement a.1 a.2.1 a.2.2 firstCatalog defaultSchema
            (match r.1 with
              | some entry => acc.1 ++ [entry]
              | none => acc.1, acc.2 ++ r.2)
        | _ => acc
      let res := exprs.foldl step ([], [])
      { errors := groupErrors res.2, lineage := res.1 }

end LineageTool

namespace PublicDbt

open StrUtil

/-- A `sqlglot` table reference as `_generate_table_alias_map` reads it:
`table.catalog`, `table.db`, `table.name` and `table.alias` texts (empty when
absent). -/
structure PTable where
  catalog : String
  db : String
  name : String
  tblAlias : String
deriving DecidableEq

/-- Classification of a lineage node's `expression` as `_resolve_base_source`
inspects it: a direct `exp.Table`, an `exp.Placeholder` (indirect alias
reference from a derived sub-select), or anything else. -/
inductive PExpr where
  | table (catalog db name : String)
  | placeholder
  | other
deriving DecidableEq

/-- A `sqlglot.lineage.Node` for the dbt parser. -/
inductive PNode where
  | mk (name : String) (expr : PExpr) (downstream : List PNode)

/-- The `name` field. -/
def PNode.name : PNode → String
  | .mk n _ _ => n

/-- The `expression` field. -/
def PNode.expr : PNode → PExpr
  | .mk _ e _ => e

/-- The `downstream` field. -/
def PNode.downstream : PNode → List PNode
  | .mk _ _ ds => ds

/-- `LineageParser._generate_table_alias_map`: scan the query tree's table
references and record `(alias, "catalog.db.name")` for every reference whose
catalog, db and alias are all non-empty.  Insertions are consed so that a
front-first lookup sees the most recent binding, like a Python dict. -/
def generateTableAliasMap (tables : List PTable) : List (String × String) :=
  tables.foldl
    (fun m t =>
      if t.catalog ≠ "" ∧ t.db ≠ "" ∧ t.tblAlias ≠ "" then
        (t.tblAlias, t.catalog ++ "." ++ t.db ++ "." ++ t.name) :: m
      else m)
    []

/-- `LineageParser._resolve_base_source`.  Returns `some` of the resolved
source string, `none` when the node is intermediate and recursion must
continue, and `.error ()` for the `ValueError` Python raises when a
placeholder node's name does not split into exactly an alias part and a
column part. -/
def resolveBaseSource (aliasMap modelMap : List (String × String)) (p : PNode) :
    Except Unit (Option String) :=
  match p.expr with
  | .table c d n =>
      let colName := lastDotSeg p.name
      let fullName := c ++ "." ++ d ++ "." ++ n
      match lookupStr (lowerStr fullName) modelMap with
      | some modelId => .ok (some (modelId ++ "." ++ colName))
      | none => .ok none
  | .placeholder =>
      match splitDot p.name with
      | [aliasPart, colPart] =>
          match lookupStr aliasPart aliasMap with
          | some fullName =>
              match lookupStr (lowerStr fullName) modelMap with
              | some modelId => .ok (some (modelId ++ "." ++ colPart))
              | none => .ok none
          | none => .ok none
      | _ => .error ()
  | .other => .ok none

mutual

/-- `LineageParser._trace_lineage_recursively`: for each downstream parent,
try `_resolve_base_source`; a resolved parent ends its path, an unresolved
one is traced recursively.  A `ValueError` from the resolver propagates. -/
def traceDbt (aliasMap modelMap : List (String × String)) : PNode → Except Unit (List String)
  | .mk _ _ ds => traceDbtList aliasMap modelMap ds

/-- The loop over `lineage_node.downstream`. -/
def traceDbtList (aliasMap modelMap : List (String × String)) :
    List PNode → Except Unit (List String)
  | [] => .ok []
  | p :: rest => do
      let first ←
        match ← resolveBaseSource aliasMap modelMap p with
        | some s => pure [s]
        | none => traceDbt aliasMap modelMap p
      let more ← traceDbtList aliasMap modelMap rest
      pure (first ++ more)

end

end PublicDbt

namespace GpDialect

/-- Tokens of the fragment of the Greenplum dialect grammar under study:
`CREATE TABLE <name> (<col defs>) [WITH (<k>=<v>, ...)]
[DISTRIBUTED BY (<cols>) | DISTRIBUTED RANDOMLY] [ORDER BY <cols>]`.
Identifiers are a separate constructor, so they never collide with the
keywords. -/
inductive Tok where
  | tCREATE
  | tTABLE
  | tWITH
  | tDISTRIBUTED
  | tBY
  | tRANDOMLY
  | tORDER
  | tLPAREN
  | tRPAREN
  | tCOMMA
  | tEQ
  | tIdent (s : String)
deriving DecidableEq

/-- The `kind` field of `exp.DistributedByProperty` (`"BY"` or `"RANDOMLY"`). -/
inductive DistKind where
  | distBy
  | distRandomly
deriving DecidableEq

/-- `exp.DistributedByProperty` as produced by
`Greenplum.Parser._parse_distributed_property`: `kind`, the optional column
tuple, and the optional trailing `ORDER BY`. -/
structure DistProp where
  kind : DistKind
  columns : Option (List String)
  order : Option (List String)
deriving DecidableEq

/-- The parsed form of a `CREATE TABLE` statement in the modelled fragment:
table name, column definitions (name/type pairs), the optional generic
storage-option clause (`WITH (...)`), and the optional distribution
property. -/
structure CreateStmt where
  table : String
  colDefs : List (String × String)
  withOpts : Option (List (String × String))
  dist : Option DistProp
deriving DecidableEq

/-- Comma-separated identifier tail: consume `, <ident>` pairs as long as
they are present. -/
def parseIdentCsvRest : List Tok → List String × List Tok
  | .tCOMMA :: .tIdent s :: rest =>
      let r := parseIdentCsvRest rest
      (s :: r.1, r.2)
  | toks => ([], toks)

/-- `_parse_csv(_parse_column)` on identifiers: one identifier, then the
comma tail. -/
def parseIdentCsv : List Tok → Option (List String × List Tok)
  | .tIdent s :: rest =>
      let r := parseIdentCsvRest rest
      some (s :: r.1, r.2)
  | _ => none

/-- A parenthesised identifier list `( c1, c2, ... )`. -/
def parseParenIdents (toks : List Tok) : Option (List String × List Tok) :=
  match toks with
  | .tLPAREN :: rest =>
      match parseIdentCsv rest with
      | some (xs, .tRPAREN :: r) => some (xs, r)
      | _ => none
  | _ => none

/-- `self._parse_order()`: an optional trailing `ORDER BY c1, c2, ...`; absent
when the next token is not `ORDER`. -/
def parseOrderClause (toks : List Tok) : Option (Option (List String) × List Tok) :=
  match toks with
  | .tORDER :: rest =>
      match rest with
      | .tBY :: r2 =>
          match parseIdentCsv r2 with
          | some (xs, r3) => some (some xs, r3)
          | none => none
      | _ => none
  | _ => some (none, toks)

/-- `Greenplum.Parser._parse_distributed_property` (the `DISTRIBUTED` keyword
has already been consumed by the property dispatcher): match `BY` and a
bracketed column list, else match `RANDOMLY`; when neither follows, fall
through silently with `kind = "BY"` and no columns.  In every branch the
optional order clause is parsed afterwards. -/
def parseDistBody (toks : List Tok) : Option (DistProp × List Tok) :=
  match toks with
  | .tBY :: rest =>
      match parseParenIdents rest with
      | some (cols, r) =>
          match parseOrderClause r with
          | some (o, r2) => some (⟨.distBy, some cols, o⟩, r2)
          | none => none
      | none => none
  | .tRANDOMLY :: rest =>
      match parseOrderClause rest with
      | some (o, r2) => some (⟨.distRandomly, none, o⟩, r2)
      | none => none
  | _ =>
      match parseOrderClause toks with
      | some (o, r2) => some (⟨.distBy, none, o⟩, r2)
      | none => none

/-- Column definitions `name type [, name type ...]` — comma tail. -/
def parseColDefsRest : List Tok → List (String × String) × List Tok
  | .tCOMMA :: .tIdent n :: .tIdent ty :: rest =>
      let r := parseColDefsRest rest
      ((n, ty) :: r.1, r.2)
  | toks => ([], toks)

/-- Column definitions: at least one `name type` pair. -/
def parseColDefs : List Tok → Option (List (String × String) × List Tok)
  | .tIdent n :: .tIdent ty :: rest =>
      let r := parseColDefsRest rest
      some ((n, ty) :: r.1, r.2)
  | _ => none

/-- Storage options `k = v [, k = v ...]` — comma tail. -/
def parseKvCsvRest : List Tok → List (String × String) × List Tok
  | .tCOMMA :: .tIdent k :: .tEQ :: .tIdent v :: rest =>
      let r := parseKvCsvRest rest
      ((k, v) :: r.1, r.2)
  | toks => ([], toks)

/-- Storage options: at least one `k = v` pair. -/
def parseKvCsv : List Tok → Option (List (String × String) × List Tok)
  | .tIdent k :: .tEQ :: .tIdent v :: rest =>
      let r := parseKvCsvRest rest
      some ((k, v) :: r.1, r.2)
  | _ => none

/-- The optional generic storage-option clause `WITH ( k = v, ... )`. -/
def parseWithOpts (toks : List Tok) : Option (Option (List (String × String)) × List Tok) :=
  match toks with
  | .tWITH :: .tLPAREN :: rest =>
      match parseKvCsv rest with
      | some (kvs, .tRPAREN :: r) => some (some kvs, r)
      | _ => none
  | _ => some (none, toks)

/-- Whole-statement parsing with the lineage-tool dialect: `CREATE TABLE
<name> ( <col defs> )`, the optional storage-option clause, the optional
distribution property, and nothing else. -/
def parseCreate (toks : List Tok) : Option CreateStmt :=
  match toks with
  | .tCREATE :: .tTABLE :: .tIdent name :: .tLPAREN :: rest =>
      match parseColDefs rest with
      | some (cds, .tRPAREN :: r) =>
          match parseWithOpts r with
          | some (w, r2) =>
              match r2 with
              | .tDISTRIBUTED :: r3 =>
                  match parseDistBody r3 with
                  | some (d, []) => some ⟨name, cds, w, some d⟩
                  | _ => none
              | [] => some ⟨name, cds, w, none⟩
              | _ => none
          | none => none
      | _ => none
  | _ => none

/-- Token form of a comma-separated identifier list. -/
def genIdentCsvTail : List String → List Tok
  | [] => []
  | x :: xs => .tCOMMA :: .tIdent x :: genIdentCsvTail xs

/-- Generate `c1, c2, ...`. -/
def genIdentCsv : List String → List Tok
  | [] => []
  | x :: xs => .tIdent x :: genIdentCsvTail xs

/-- Generate the optional `ORDER BY` suffix (the `{order}` in
`distributedbyproperty_sql`). -/
def genOrder : Option (List String) → List Tok
  | none => []
  | some xs => .tORDER :: .tBY :: genIdentCsv xs

/-- The clause body emitted by
`Greenplum.Generator.distributedbyproperty_sql`: `RANDOMLY {order}` when the
kind is `RANDOMLY` (ignoring any columns), otherwise `BY {exprs}{order}`
where `{exprs}` is the column tuple or empty when the property carries no
columns. -/
def genDistBody (d : DistProp) : List Tok :=
  match d.kind with
  | .distRandomly => .tRANDOMLY :: genOrder d.order
  | .distBy =>
      .tBY ::
        ((match d.columns with
          | some cols => .tLPAREN :: (genIdentCsv cols ++ [.tRPAREN])
          | none => []) ++ genOrder d.order)

/-- `Greenplum.Generator.distributedbyproperty_sql` with its leading
`DISTRIBUTED` keyword. -/
def genDist (d : DistProp) : List Tok :=
  .tDISTRIBUTED :: genDistBody d

/-- Generate `name type, ...` — comma tail. -/
def genColDefsTail : List (String × String) → List Tok
  | [] => []
  | (n, ty) :: xs => .tCOMMA :: .tIdent n :: .tIdent ty :: genColDefsTail xs

/-- Generate the column definition list. -/
def genColDefs : List (String × String) → List Tok
  | [] => []
  | (n, ty) :: xs => .tIdent n :: .tIdent ty :: genColDefsTail xs

/-- Generate `k = v, ...` — comma tail. -/
def genKvCsvTail : List (String × String) → List Tok
  | [] => []
  | (k, v) :: xs => .tCOMMA :: .tIdent k :: .tEQ :: .tIdent v :: genKvCsvTail xs

/-- Generate the storage-option pair list. -/
def genKvCsv : List (String × String) → List Tok
  | [] => []
  | (k, v) :: xs => .tIdent k :: .tEQ :: .tIdent v :: genKvCsvTail xs

/-- SQL generation for the whole modelled `CREATE TABLE` statement; the
distribution property sits at its fixed `POST_EXPRESSION` position after
every other clause. -/
def genCreate (c : CreateStmt) : List Tok :=
  [.tCREATE, .tTABLE, .tIdent c.table, .tLPAREN] ++ genColDefs c.colDefs ++ [.tRPAREN] ++
    (match c.withOpts with
      | some kvs => [.tWITH, .tLPAREN] ++ genKvCsv kvs ++ [.tRPAREN]
      | none => []) ++
    (match c.dist with
      | some d => genDist d
      | none => [])

/-- The `Distributed` node of the alternate dialect in
`src/tests/greenplum/GreenplumDialect.py`: content (the column tuple for
`BY`, a `Randomly` marker — modelled as `none` — for `RANDOMLY`) and the two
boolean flags. -/
structure TDist where
  content : Option (List String)
  byFlag : Bool
  randomlyFlag : Bool
deriving DecidableEq

/-- The `DISTRIBUTED` branch of the alternate dialect's
`_parse_query_modifiers` (the `DISTRIBUTED` keyword already matched): try
`RANDOMLY`, then `BY` with a bracketed column list, and otherwise raise
`Expected RANDOMLY or BY after DISTRIBUTED`. -/
def parseDistBodyTests (toks : List Tok) : Except String (TDist × List Tok) :=
  match toks with
  | .tRANDOMLY :: rest => .ok (⟨none, false, true⟩, rest)
  | .tBY :: rest =>
      match parseParenIdents rest with
      | some (cols, r) => .ok (⟨some cols, true, false⟩, r)
      | none => .error "Expected RANDOMLY or BY after DISTRIBUTED"
  | _ => .error "Expected RANDOMLY or BY after DISTRIBUTED"

/-- Well-formedness of the modelled ASTs: the shapes whole-statement parsing
can output — non-empty column-definition, option, column and order lists,
and no columns stored on a `RANDOMLY` property. -/
def WfCreate (c : CreateStmt) : Prop :=
  c.colDefs ≠ [] ∧
    (∀ kvs, c.withOpts = some kvs → kvs ≠ []) ∧
    (∀ d, c.dist = some d →
      (∀ cols, d.columns = some cols → cols ≠ []) ∧
        (d.kind = .distRandomly → d.columns = none) ∧
        (∀ os, d.order = some os → os ≠ []))

/-- A distribution property of one of the two documented clause forms:
`DISTRIBUTED BY (cols)` (kind `BY` with a column tuple) or `DISTRIBUTED
RANDOMLY`.  The silent bare-`DISTRIBUTED` fallthrough node (`BY` with no
columns) is neither. -/
def DistCarried (d : DistProp) : Prop :=
  (d.kind = .distBy ∧ d.columns ≠ none) ∨ d.kind = .distRandomly

end GpDialect

namespace StarPass

open StrUtil

/-- An argument of a function call as `_replace_star_args` discriminates
them: a star column `alias.*` (an `exp.Column` whose `this` is `exp.Star`),
a plain column reference, an already-expanded tuple of column references,
or any other expression (identified by an opaque tag). -/
inductive Arg where
  | starCol (table : String)
  | colRef (table col : String)
  | tupleArg (cols : List (String × String))
  | otherArg (tag : Nat)
deriving DecidableEq

/-- `GreenplumLineageParser._replace_star_args`: rebuild the function's
argument list, replacing every `alias.*` argument whose alias is in the scope
map by a tuple of `(alias, column)` references over the alias's column set,
sorted alphabetically; every other argument is kept as it is. -/
def replaceStarArgs (scope : List (String × List String)) (args : List Arg) : List Arg :=
  args.map fun arg =>
    match arg with
    | .starCol t =>
        match lookupCols t scope with
        | some cols => .tupleArg ((sortStrs cols.dedup).map (fun c => (t, c)))
        | none => .starCol t
    | a => a

/-- A table reference in the scope scan of
`_qualify_stars_inside_functions`: its alias (`table.alias_or_name`) and its
base name (`table.name`). -/
structure STable where
  tblAlias : String
  name : String
deriving DecidableEq

/-- The parts of a statement's query tree that the star-expansion pre-pass
reads and rewrites: the CTE definitions with their output column sets, the
table references in scope, and the argument lists of the function calls in
the tree. -/
structure QTree where
  ctes : List (String × List String)
  tables : List STable
  funcs : List (List Arg)
deriving DecidableEq

/-- Steps 1–2 of `_qualify_stars_inside_functions`: map each table
reference's columns from the CTE definitions when its name matches a CTE,
else from the schema (`schemaFind`, where `none` covers both a missing entry
and the ignored `SchemaError`); when a non-empty column set is found,
register it under both the reference's alias and its base name. -/
def scopeColumns (schemaFind : String → Option (List String)) (t : QTree) :
    List (String × List String) :=
  t.tables.foldl
    (fun m tab =>
      let colsOpt :=
        match lookupCols tab.name t.ctes with
        | some cs => some cs
        | none => schemaFind tab.name
      match colsOpt with
      | some cs => if cs ≠ [] then (tab.name, cs) :: (tab.tblAlias, cs) :: m else m
      | none => m)
    []

/-- The value-level effect of `_qualify_stars_inside_functions` on the tree
it works on: every function call's arguments go through
`_replace_star_args` with the scope map built from the tree. -/
def qualifyStarsPure (schemaFind : String → Option (List String)) (t : QTree) : QTree :=
  { t with funcs := t.funcs.map (replaceStarArgs (scopeColumns schemaFind t)) }

/-- `_qualify_stars_inside_functions` with Python object identity made
explicit: the heap is a store of expression objects, the argument is a
reference into it.  The method first evaluates `expression.copy()` — a fresh
object — then performs all its `func.set(...)` mutations on that fresh
object, and returns a reference to it.  The input object is never written. -/
def qualifyStarsOnHeap (schemaFind : String → Option (List String))
    (heap : List QTree) (ref : Nat) : List QTree × Nat :=
  let e := heap.getD ref ⟨[], [], []⟩
  (heap ++ [qualifyStarsPure schemaFind e], heap.length)

end StarPass

namespace StrUtil

theorem lexLeChars_cons (a b : Char) (as bs : List Char) :
    lexLeChars (a :: as) (b :: bs) = true ↔
      a.toNat < b.toNat ∨ (a.toNat = b.toNat ∧ lexLeChars as bs = true) := by
  simp only [lexLeChars]
  split_ifs with h1 h2
  · simp [h1]
  · constructor
    · simp
    · rintro (h | ⟨h, -⟩) <;> omega
  · have he : a.toNat = b.toNat := by omega
    simp [h1, he]

theorem lexLeChars_total : ∀ a b : List Char, lexLeChars a b = true ∨ lexLeChars b a = true
  | [], _ => Or.inl rfl
  | _ :: _, [] => Or.inr rfl
  | c :: cs, d :: ds => by
      rcases Nat.lt_trichotomy c.toNat d.toNat with h | h | h
      · exact Or.inl ((lexLeChars_cons _ _ _ _).mpr (Or.inl h))
      · rcases lexLeChars_total cs ds with ih | ih
        · exact Or.inl ((lexLeChars_cons _ _ _ _).mpr (Or.inr ⟨h, ih⟩))
        · exact Or.inr ((lexLeChars_cons _ _ _ _).mpr (Or.inr ⟨h.symm, ih⟩))
      · exact Or.inr ((lexLeChars_cons _ _ _ _).mpr (Or.inl h))

theorem lexLeChars_trans :
    ∀ a b c : List Char,
      lexLeChars a b = true → lexLeChars b c = true → lexLeChars a c = true
  | [], _, _ => fun _ _ => rfl
  | _ :: _, [], _ => fun h _ => absurd h (by simp [lexLeChars])
  | _ :: _, _ :: _, [] => fun _ h => absurd h (by simp [lexLeChars])
  | a :: as, b :: bs, c :: cs => by
      intro h1 h2
      rcases (lexLeChars_cons _ _ _ _).mp h1 with hlt | ⟨heq, hrec⟩ <;>
        rcases (lexLeChars_cons _ _ _ _).mp h2 with hlt2 | ⟨heq2, hrec2⟩
      · exact (lexLeChars_cons _ _ _ _).mpr (Or.inl (by omega))
      · exact (lexLeChars_cons _ _ _ _).mpr (Or.inl (by omega))
      · exact (lexLeChars_cons _ _ _ _).mpr (Or.inl (by omega))
      · exact (lexLeChars_cons _ _ _ _).mpr
          (Or.inr ⟨by omega, lexLeChars_trans as bs cs hrec hrec2⟩)

theorem strLeB_total (a b : String) : strLeB a b = true ∨ strLeB b a = true :=
  lexLeChars_total a.data b.data

theorem strLeB_trans {a b c : String} (h1 : strLeB a b = true) (h2 : strLeB b c = true) :
    strLeB a c = true :=
  lexLeChars_trans a.data b.data c.data h1 h2

theorem mem_insertStr {y x : String} {l : List String} :
    y ∈ insertStr x l ↔ y = x ∨ y ∈ l := by
  induction l with
  | nil => simp [insertStr]
  | cons z zs ih =>
      show y ∈ (if strLeB x z then x :: z :: zs else z :: insertStr x zs) ↔ _
      by_cases h : strLeB x z = true
      · rw [if_pos h]
        simp only [List.mem_cons]
      · rw [if_neg h]
        simp only [List.mem_cons, ih]
        tauto

theorem mem_sortStrs {y : String} {l : List String} :
    y ∈ sortStrs l ↔ y ∈ l := by
  induction l with
  | nil => simp [sortStrs]
  | cons x xs ih => simp [sortStrs, mem_insertStr, ih]

theorem pairwise_insertStr (x : String) {l : List String}
    (h : l.Pairwise (fun a b => strLeB a b = true)) :
    (insertStr x l).Pairwise (fun a b => strLeB a b = true) := by
  induction l with
  | nil => simp [insertStr]
  | cons y ys ih =>
      rcases List.pairwise_cons.mp h with ⟨hy, hys⟩
      show List.Pairwise _ (if strLeB x y then x :: y :: ys else y :: insertStr x ys)
      by_cases hxy : strLeB x y = true
      · rw [if_pos hxy]
        refine List.Pairwise.cons ?_ h
        intro b hb
        rcases List.mem_cons.mp hb with rfl | hb
        · exact hxy
        · exact strLeB_trans hxy (hy b hb)
      · rw [if_neg hxy]
        refine List.Pairwise.cons ?_ (ih hys)
        intro b hb
        rcases mem_insertStr.mp hb with hbx | hb
        · cases hbx
          rcases strLeB_total x y with hx | hx
          · exact absurd hx hxy
          · exact hx
        · exact hy b hb

/-- `sortStrs` output is pairwise ascending for `strLeB`. -/
theorem sortStrs_sorted (l : List String) :
    (sortStrs l).Pairwise (fun a b => strLeB a b = true) := by
  induction l with
  | nil => exact List.Pairwise.nil
  | cons x xs ih => exact pairwise_insertStr x ih

theorem dot_mem_joinDot (p q : String) (ps : List String) :
    '.' ∈ (joinDot (p :: q :: ps)).data := by
  show '.' ∈ (p ++ "." ++ joinDot (q :: ps)).data
  simp [String.data_append]

theorem dot_mem_append_left {s t : String} (h : '.' ∈ s.data) : '.' ∈ (s ++ t).data := by
  simp [String.data_append, h]


end StrUtil

section Claims

open StrUtil

/-- Auxiliary for C2: prepending statements that do not match the
search-path pattern leaves `findDefaultSchema` unchanged. -/
theorem findDefaultSchema_append_of_no_match
    (pre rest : List LineageTool.TopStmt)
    (hpre : ∀ s ∈ pre, LineageTool.isSearchPathSet s = false) :
    LineageTool.findDefaultSchema (pre ++ rest) = LineageTool.findDefaultSchema rest := by
  induction pre with
  | nil => rfl
  | cons s ss ih =>
      have hs := hpre s (List.mem_cons_self s ss)
      have hrec := ih (fun x hx => hpre x (List.mem_cons_of_mem s hx))
      cases s with
      | setStmt v value =>
          have hv : ¬ upperStr v = "SEARCH_PATH" := by
            intro h
            simp [LineageTool.isSearchPathSet, h] at hs
          simpa [LineageTool.findDefaultSchema, hv] using hrec
      | createStmt i => simpa [LineageTool.findDefaultSchema] using hrec
      | otherStmt => simpa [LineageTool.findDefaultSchema] using hrec

/-- C2 (counterexample): a script with two `SET search_path TO ...`
directives.  `_find_default_schema` returns the schema of the FIRST
directive, not of the last one as the claim states. -/
theorem c2_counterexample :
    LineageTool.findDefaultSchema
        [LineageTool.TopStmt.setStmt "search_path" "schema_a",
          LineageTool.TopStmt.setStmt "search_path" "schema_b"] = some "schema_a" ∧
      LineageTool.findDefaultSchema
          [LineageTool.TopStmt.setStmt "search_path" "schema_a",
            LineageTool.TopStmt.setStmt "search_path" "schema_b"] ≠ some "schema_b" := by
  constructor
  · decide
  · decide

/-- C2 (amended): for every script containing `SET search_path TO <schema>;`
directives, the default schema used for the analysis run is the schema named
by the FIRST such directive in script order. -/
theorem c2_first_search_path_wins
    (pre post : List LineageTool.TopStmt) (v value : String)
    (hpre : ∀ s ∈ pre, LineageTool.isSearchPathSet s = false)
    (hv : upperStr v = "SEARCH_PATH") :
    LineageTool.findDefaultSchema
        (pre ++ LineageTool.TopStmt.setStmt v value :: post) = some value := by
  rw [findDefaultSchema_append_of_no_match pre _ hpre]
  simp [LineageTool.findDefaultSchema, hv]

/-- C2 (witness for the amended claim): in a script with an unrelated
statement followed by two search-path directives, the first directive's
schema wins. -/
theorem c2_first_search_path_wins_witness :
    LineageTool.findDefaultSchema
        [LineageTool.TopStmt.otherStmt,
          LineageTool.TopStmt.setStmt "search_path" "s1",
          LineageTool.TopStmt.setStmt "search_path" "s2"] = some "s1" :=
  c2_first_search_path_wins [LineageTool.TopStmt.otherStmt]
    [LineageTool.TopStmt.setStmt "search_path" "s2"] "search_path" "s1"
    (by decide) (by decide)

/-- C3 (code bug): on `CREATE TABLE t (id INT) DISTRIBUTED` — the keyword
`DISTRIBUTED` followed by neither `BY` nor `RANDOMLY` — the lineage-tool
dialect does NOT fail: it silently succeeds and produces a
`DistributedByProperty` clause node with kind `BY` and no columns.  The
alternate dialect shipped with the test suite raises exactly the error the
claim describes, naming the expected alternatives. -/
theorem c3_bare_distributed_parses_silently :
    GpDialect.parseCreate
        [GpDialect.Tok.tCREATE, GpDialect.Tok.tTABLE, GpDialect.Tok.tIdent "t",
          GpDialect.Tok.tLPAREN, GpDialect.Tok.tIdent "id", GpDialect.Tok.tIdent "INT",
          GpDialect.Tok.tRPAREN, GpDialect.Tok.tDISTRIBUTED] =
        some ⟨"t", [("id", "INT")], none, some ⟨GpDialect.DistKind.distBy, none, none⟩⟩ ∧
      GpDialect.parseDistBodyTests [] =
        Except.error "Expected RANDOMLY or BY after DISTRIBUTED" :=
  ⟨rfl, rfl⟩

/-- C8: whenever whole-script parsing fails, `generate_lineage` returns
normally with an errors map holding exactly the single `"script"` entry and
an empty lineage map, for every error text and every configuration of the
per-statement analyses. -/
theorem c8_script_failure_report (e : String) (firstCatalog : Option String)
    (analyzeStmt :
      Nat →
        String × Except String LineageTool.OptSelect ×
          (String → Except String (List String))) :
    LineageTool.generateLineage (Except.error e) firstCatalog analyzeStmt =
        { errors := [("script", ["Failed to parse the entire SQL script: " ++ e])],
          lineage := [] } ∧
      (LineageTool.generateLineage (Except.error e) firstCatalog analyzeStmt).errors.length = 1 ∧
      (LineageTool.generateLineage (Except.error e) firstCatalog analyzeStmt).errors.map
          Prod.fst = ["script"] ∧
      (LineageTool.generateLineage (Except.error e) firstCatalog analyzeStmt).lineage = [] :=
  ⟨rfl, rfl, rfl, rfl⟩

/-- C10: the star-expansion pre-pass never mutates its input object.  With
Python object identity modelled as a heap of expression objects, the pass
allocates a copy, rewrites only the copy, and returns a reference to it:
every pre-existing heap cell — in particular the input — is unchanged, and
the returned reference holds the rewritten copy of the input. -/
theorem c10_star_pass_leaves_input_unchanged
    (schemaFind : String → Option (List String))
    (heap : List StarPass.QTree) (ref i : Nat) (hi : i < heap.length) :
    ((StarPass.qualifyStarsOnHeap schemaFind heap ref).1)[i]? = heap[i]? ∧
      ((StarPass.qualifyStarsOnHeap schemaFind heap ref).1)[
          (StarPass.qualifyStarsOnHeap schemaFind heap ref).2]? =
        some (StarPass.qualifyStarsPure schemaFind (heap.getD ref ⟨[], [], []⟩)) := by
  constructor
  · show (heap ++ [_])[i]? = heap[i]?
    rw [List.getElem?_append]
    simp [hi]
  · show (heap ++ [_])[heap.length]? = _
    rw [List.getElem?_append]
    simp

/-- C10 (witness): a one-object heap; the input object at reference 0 is
unchanged by the pass. -/
theorem c10_star_pass_leaves_input_unchanged_witness :
    ((StarPass.qualifyStarsOnHeap (fun _ => none)
          [⟨[("x", ["a"])], [⟨"t", "t"⟩], [[StarPass.Arg.starCol "t"]]⟩] 0).1)[0]? =
        some ⟨[("x", ["a"])], [⟨"t", "t"⟩], [[StarPass.Arg.starCol "t"]]⟩ :=
  (c10_star_pass_leaves_input_unchanged (fun _ => none)
      [⟨[("x", ["a"])], [⟨"t", "t"⟩], [[StarPass.Arg.starCol "t"]]⟩] 0 0 (by decide)).1

/-- C5: `_replace_star_args` preserves the argument count; every `alias.*`
argument whose alias has a known column set becomes an explicit tuple of
`(alias, column)` references over exactly that column set, listed in strictly
ascending alphabetical order; every other argument — a wildcard with an
unknown alias included — is left unchanged. -/
theorem c5_replace_star_args
    (scope : List (String × List String)) (args : List StarPass.Arg) (i : Nat) :
    (StarPass.replaceStarArgs scope args).length = args.length ∧
      (∀ t cols, args[i]? = some (StarPass.Arg.starCol t) →
        lookupCols t scope = some cols →
        (StarPass.replaceStarArgs scope args)[i]? =
            some (StarPass.Arg.tupleArg
              ((sortStrs cols.dedup).map (fun c => (t, c)))) ∧
          (sortStrs cols.dedup).Pairwise (fun a b => strLeB a b = true) ∧
          (∀ c, c ∈ sortStrs cols.dedup ↔ c ∈ cols)) ∧
      (∀ a, args[i]? = some a →
        (∀ t, a = StarPass.Arg.starCol t → lookupCols t scope = none) →
        (StarPass.replaceStarArgs scope args)[i]? = some a) := by
  refine ⟨List.length_map _ _, ?_, ?_⟩
  · intro t cols hg hl
    refine ⟨?_, sortStrs_sorted _, fun c => by rw [mem_sortStrs, List.mem_dedup]⟩
    rw [StarPass.replaceStarArgs, List.getElem?_map, hg]
    simp [hl]
  · intro a hg hother
    rw [StarPass.replaceStarArgs, List.getElem?_map, hg]
    cases a with
    | starCol t => simp [hother t rfl]
    | colRef t c => rfl
    | tupleArg cols => rfl
    | otherArg n => rfl

/-- C5 (witness): with `c` bound to columns `{name, id}`, the argument list
`[c.*, other]` becomes `[(c.id, c.name), other]` — the tuple alphabetical,
the other argument untouched. -/
theorem c5_replace_star_args_witness :
    (StarPass.replaceStarArgs [("c", ["name", "id"])]
          [StarPass.Arg.starCol "c", StarPass.Arg.otherArg 7])[0]? =
        some (StarPass.Arg.tupleArg [("c", "id"), ("c", "name")]) ∧
      (StarPass.replaceStarArgs [("c", ["name", "id"])]
          [StarPass.Arg.starCol "c", StarPass.Arg.otherArg 7])[1]? =
        some (StarPass.Arg.otherArg 7) := by
  constructor
  · have h :=
      ((c5_replace_star_args [("c", ["name", "id"])]
            [StarPass.Arg.starCol "c", StarPass.Arg.otherArg 7] 0).2.1
        "c" ["name", "id"] rfl rfl).1
    rw [h]
    decide
  · exact
      (c5_replace_star_args [("c", ["name", "id"])]
            [StarPass.Arg.starCol "c", StarPass.Arg.otherArg 7] 1).2.2
        (StarPass.Arg.otherArg 7) rfl (fun t ht => nomatch ht)

/-- Auxiliary for C7: under well-formed defaults, the code-side FQN parts
agree with the spec-side presence-based parts. -/
theorem fqnParts_eq_spec_parts (t : LineageTool.TableExpr)
    (dDb dSch : Option String)
    (hnm : t.name ≠ "") (hdb : dDb ≠ some "") (hsch : dSch ≠ some "") :
    LineageTool.fqnParts t dDb dSch =
      (if t.catalog ≠ "" then some t.catalog else dDb).toList ++
        (if t.db ≠ "" then some t.db else dSch).toList ++ [t.name] := by
  unfold LineageTool.fqnParts LineageTool.pyOrStr
  by_cases hc : t.catalog = "" <;> by_cases hd : t.db = "" <;>
    cases dDb with
    | none => ?_ | some vdb => ?_
  all_goals cases dSch with
    | none => ?_ | some vsch => ?_
  all_goals try have hvdb : vdb ≠ "" := fun h => hdb (by rw [h])
  all_goals try have hvsch : vsch ≠ "" := fun h => hsch (by rw [h])
  all_goals simp [hc, hd, hnm, *]

/-- C7: a dependency node classified as a base-table reference terminates the
trace with exactly one emitted string `FQN ++ "." ++ column`, where the FQN
is built from the table expression's own catalog and schema when present and
from the supplied defaults otherwise — absent parts simply omitted, no
padding (the spec-side `specFqn` built from present parts only) — and the
column is the final dot-separated segment of the node's name; the node's own
source edges are not recursed into. -/
theorem c7_base_table_terminal (c d nm pname rootName : String)
    (rootExpr : LineageTool.NodeExpr) (pds : List LineageTool.LinNode)
    (dDb dSch : Option String)
    (hnm : nm ≠ "") (hdb : dDb ≠ some "") (hsch : dSch ≠ some "") :
    LineageTool.traceRec dDb dSch
        (LineageTool.LinNode.mk rootName rootExpr
          [LineageTool.LinNode.mk pname (LineageTool.NodeExpr.table ⟨c, d, nm⟩) pds]) =
        [LineageTool.specFqn ⟨c, d, nm⟩ dDb dSch ++ "." ++ lastDotSeg pname] ∧
      LineageTool.getTableFqn ⟨c, d, nm⟩ dDb dSch = LineageTool.specFqn ⟨c, d, nm⟩ dDb dSch := by
  have key : LineageTool.getTableFqn ⟨c, d, nm⟩ dDb dSch =
      LineageTool.specFqn ⟨c, d, nm⟩ dDb dSch := by
    unfold LineageTool.getTableFqn LineageTool.specFqn
    rw [fqnParts_eq_spec_parts ⟨c, d, nm⟩ dDb dSch hnm hdb hsch]
  refine ⟨?_, key⟩
  show (match LineageTool.NodeExpr.table ⟨c, d, nm⟩ with
      | LineageTool.NodeExpr.table t => [LineageTool.getTableFqn t dDb dSch ++ "." ++ lastDotSeg pname]
      | LineageTool.NodeExpr.other =>
          LineageTool.traceRec dDb dSch (LineageTool.LinNode.mk pname (LineageTool.NodeExpr.table ⟨c, d, nm⟩) pds)) ++
      LineageTool.traceRecList dDb dSch [] = _
  simp [LineageTool.traceRecList, key]

/-- C7 (witness): a base-table parent with catalog missing on the expression
and supplied by the default; the schema comes from the expression; the
column is the last segment of the dotted node name; the parent's source
edges (one dangling node) are ignored. -/
theorem c7_base_table_terminal_witness :
    LineageTool.traceRec (some "db") (some "x")
        (LineageTool.LinNode.mk "r" LineageTool.NodeExpr.other
          [LineageTool.LinNode.mk "c1.a" (LineageTool.NodeExpr.table ⟨"", "s", "t"⟩)
            [LineageTool.LinNode.mk "dangling" LineageTool.NodeExpr.other []]]) =
      ["db.s.t.a"] := by
  have h :=
    (c7_base_table_terminal "" "s" "t" "c1.a" "r" LineageTool.NodeExpr.other
        [LineageTool.LinNode.mk "dangling" LineageTool.NodeExpr.other []]
        (some "db") (some "x") (by decide) (by decide) (by decide)).1
  rw [h]
  decide

/-- C1: for a dependency node whose expression is an alias placeholder and
whose name splits into an alias part and a column part, the resolver looks
the alias part up in the alias→FQN map built by `_generate_table_alias_map`
from the query tree's table references; when both that lookup and the model
lookup on the resulting FQN succeed, the trace emits exactly the resolved
source (and does not recurse into the node's own edges); when either lookup
fails, the trace falls through to recursing over the node's source edges. -/
theorem c1_alias_placeholder_resolution
    (tables : List PublicDbt.PTable) (modelMap : List (String × String))
    (rootName pname : String) (rootExpr : PublicDbt.PExpr)
    (pds : List PublicDbt.PNode) (aliasPart colPart : String)
    (hsplit : splitDot pname = [aliasPart, colPart]) :
    (∀ fullName modelId,
        lookupStr aliasPart (PublicDbt.generateTableAliasMap tables) = some fullName →
        lookupStr (lowerStr fullName) modelMap = some modelId →
        PublicDbt.traceDbt (PublicDbt.generateTableAliasMap tables) modelMap
            (PublicDbt.PNode.mk rootName rootExpr
              [PublicDbt.PNode.mk pname PublicDbt.PExpr.placeholder pds]) =
          Except.ok [modelId ++ "." ++ colPart]) ∧
      (lookupStr aliasPart (PublicDbt.generateTableAliasMap tables) = none →
        PublicDbt.traceDbt (PublicDbt.generateTableAliasMap tables) modelMap
            (PublicDbt.PNode.mk rootName rootExpr
              [PublicDbt.PNode.mk pname PublicDbt.PExpr.placeholder pds]) =
          PublicDbt.traceDbt (PublicDbt.generateTableAliasMap tables) modelMap
            (PublicDbt.PNode.mk pname PublicDbt.PExpr.placeholder pds)) ∧
      (∀ fullName,
        lookupStr aliasPart (PublicDbt.generateTableAliasMap tables) = some fullName →
        lookupStr (lowerStr fullName) modelMap = none →
        PublicDbt.traceDbt (PublicDbt.generateTableAliasMap tables) modelMap
            (PublicDbt.PNode.mk rootName rootExpr
              [PublicDbt.PNode.mk pname PublicDbt.PExpr.placeholder pds]) =
          PublicDbt.traceDbt (PublicDbt.generateTableAliasMap tables) modelMap
            (PublicDbt.PNode.mk pname PublicDbt.PExpr.placeholder pds)) := by
  refine ⟨?_, ?_, ?_⟩
  · intro fullName modelId h1 h2
    have hres : PublicDbt.resolveBaseSource (PublicDbt.generateTableAliasMap tables) modelMap
        (PublicDbt.PNode.mk pname PublicDbt.PExpr.placeholder pds) =
        Except.ok (some (modelId ++ "." ++ colPart)) := by
      simp [PublicDbt.resolveBaseSource, PublicDbt.PNode.expr, PublicDbt.PNode.name,
        hsplit, h1, h2]
    show PublicDbt.traceDbtList _ _ _ = _
    simp [PublicDbt.traceDbtList, hres, Bind.bind, Except.bind, Pure.pure, Except.pure]
  · intro h1
    have hres : PublicDbt.resolveBaseSource (PublicDbt.generateTableAliasMap tables) modelMap
        (PublicDbt.PNode.mk pname PublicDbt.PExpr.placeholder pds) = Except.ok none := by
      simp [PublicDbt.resolveBaseSource, PublicDbt.PNode.expr, PublicDbt.PNode.name,
        hsplit, h1]
    show PublicDbt.traceDbtList _ _ _ = _
    cases htr : PublicDbt.traceDbt (PublicDbt.generateTableAliasMap tables) modelMap
        (PublicDbt.PNode.mk pname PublicDbt.PExpr.placeholder pds) with
    | error u =>
        simp [PublicDbt.traceDbtList, hres, htr, Bind.bind, Except.bind, Pure.pure,
          Except.pure]
    | ok l =>
        simp [PublicDbt.traceDbtList, hres, htr, Bind.bind, Except.bind, Pure.pure,
          Except.pure]
  · intro fullName h1 h2
    have hres : PublicDbt.resolveBaseSource (PublicDbt.generateTableAliasMap tables) modelMap
        (PublicDbt.PNode.mk pname PublicDbt.PExpr.placeholder pds) = Except.ok none := by
      simp [PublicDbt.resolveBaseSource, PublicDbt.PNode.expr, PublicDbt.PNode.name,
        hsplit, h1, h2]
    show PublicDbt.traceDbtList _ _ _ = _
    cases htr : PublicDbt.traceDbt (PublicDbt.generateTableAliasMap tables) modelMap
        (PublicDbt.PNode.mk pname PublicDbt.PExpr.placeholder pds) with
    | error u =>
        simp [PublicDbt.traceDbtList, hres, htr, Bind.bind, Except.bind, Pure.pure,
          Except.pure]
    | ok l =>
        simp [PublicDbt.traceDbtList, hres, htr, Bind.bind, Except.bind, Pure.pure,
          Except.pure]

/-- C1 (witness): the placeholder node `c.id` resolves through the alias map
built from a table reference `Db.S.customers AS c` and the model map, and
emits exactly the model column; with an empty alias map it instead falls
through to its (empty) source edges. -/
theorem c1_alias_placeholder_resolution_witness :
    PublicDbt.traceDbt (PublicDbt.generateTableAliasMap [⟨"Db", "S", "customers", "c"⟩])
        [("db.s.customers", "model.x")]
        (PublicDbt.PNode.mk "root" PublicDbt.PExpr.other
          [PublicDbt.PNode.mk "c.id" PublicDbt.PExpr.placeholder
            [PublicDbt.PNode.mk "inner" PublicDbt.PExpr.other []]]) =
        Except.ok ["model.x.id"] ∧
      PublicDbt.traceDbt (PublicDbt.generateTableAliasMap []) [("db.s.customers", "model.x")]
          (PublicDbt.PNode.mk "root" PublicDbt.PExpr.other
            [PublicDbt.PNode.mk "c.id" PublicDbt.PExpr.placeholder []]) =
        PublicDbt.traceDbt (PublicDbt.generateTableAliasMap []) [("db.s.customers", "model.x")]
          (PublicDbt.PNode.mk "c.id" PublicDbt.PExpr.placeholder []) := by
  constructor
  · have h :=
      (c1_alias_placeholder_resolution [⟨"Db", "S", "customers", "c"⟩]
            [("db.s.customers", "model.x")] "root" "c.id" PublicDbt.PExpr.other
            [PublicDbt.PNode.mk "inner" PublicDbt.PExpr.other []] "c" "id" (by decide)).1
        "Db.S.customers" "model.x" (by decide) (by decide)
    rw [h]
    rfl
  · exact
      (c1_alias_placeholder_resolution [] [("db.s.customers", "model.x")] "root" "c.id"
          PublicDbt.PExpr.other [] "c" "id" (by decide)).2.1 (by decide)

/-- Auxiliary for C9: one unfolding step of the per-column loop. -/
theorem processColumns_cons (t : String) (f : String → Except String (List String))
    (c0 : String) (rest : List String) :
    LineageTool.processColumns t f (c0 :: rest) =
      match f c0 with
      | Except.ok s =>
          if s = [] then LineageTool.processColumns t f rest
          else ((c0, sortStrs s.dedup) :: (LineageTool.processColumns t f rest).1,
            (LineageTool.processColumns t f rest).2)
      | Except.error e =>
          ((LineageTool.processColumns t f rest).1,
            (t, "Could not trace column " ++ c0 ++ ": " ++ e) ::
              (LineageTool.processColumns t f rest).2) := by
  show (match f c0 with
    | Except.ok s => _
    | Except.error e => _) = _
  cases f c0 with
  | ok s =>
      by_cases hs : s = []
      · simp [hs]
      · simp [hs]
  | error e => rfl

/-- C9: within one CREATE TABLE statement's per-column loop, a column appears
in the recorded columns map exactly when it is one of the statement's output
columns and its trace succeeded with a non-empty source set; and every column
whose trace fails contributes an error entry under the target table's FQN
whose message contains the column's name — independently of the other
columns, which are still processed. -/
theorem c9_per_column_isolation (targetFqn : String)
    (colTrace : String → Except String (List String)) (cols : List String) (c : String) :
    ((∃ v, (c, v) ∈ (LineageTool.processColumns targetFqn colTrace cols).1) ↔
        (c ∈ cols ∧ ∃ s, colTrace c = Except.ok s ∧ s ≠ [])) ∧
      (∀ e, c ∈ cols → colTrace c = Except.error e →
        ∃ msg, (targetFqn, msg) ∈ (LineageTool.processColumns targetFqn colTrace cols).2 ∧
          ∃ pre post, msg.data = pre ++ c.data ++ post) := by
  induction cols with
  | nil =>
      constructor
      · simp [LineageTool.processColumns]
      · intro e hc
        exact absurd hc (List.not_mem_nil c)
  | cons c0 rest ih =>
      cases htr : colTrace c0 with
      | ok s =>
          have hstep : LineageTool.processColumns targetFqn colTrace (c0 :: rest) =
              if s = [] then LineageTool.processColumns targetFqn colTrace rest
              else ((c0, sortStrs s.dedup) ::
                  (LineageTool.processColumns targetFqn colTrace rest).1,
                (LineageTool.processColumns targetFqn colTrace rest).2) := by
            rw [processColumns_cons, htr]
          rw [hstep]
          by_cases hs : s = []
          · rw [if_pos hs]
            constructor
            · rw [ih.1]
              constructor
              · rintro ⟨hc, hp⟩
                exact ⟨List.mem_cons_of_mem c0 hc, hp⟩
              · rintro ⟨hc, s2, hok, hne⟩
                rcases List.mem_cons.mp hc with rfl | hc
                · rw [htr] at hok
                  cases hok
                  exact absurd hs hne
                · exact ⟨hc, s2, hok, hne⟩
            · intro e hc herr
              rcases List.mem_cons.mp hc with rfl | hc
              · rw [htr] at herr
                cases herr
              · exact ih.2 e hc herr
          · rw [if_neg hs]
            constructor
            · constructor
              · rintro ⟨v, hv⟩
                rcases List.mem_cons.mp hv with heq | hv
                · have hc : c = c0 := congrArg Prod.fst heq
                  subst hc
                  exact ⟨List.mem_cons_self c rest, s, htr, hs⟩
                · rcases ih.1.mp ⟨v, hv⟩ with ⟨hc, hp⟩
                  exact ⟨List.mem_cons_of_mem c0 hc, hp⟩
              · rintro ⟨hc, s2, hok, hne⟩
                rcases List.mem_cons.mp hc with rfl | hc
                · exact ⟨sortStrs s.dedup, List.mem_cons_self _ _⟩
                · rcases ih.1.mpr ⟨hc, s2, hok, hne⟩ with ⟨v, hv⟩
                  exact ⟨v, List.mem_cons_of_mem _ hv⟩
            · intro e hc herr
              rcases List.mem_cons.mp hc with rfl | hc
              · rw [htr] at herr
                cases herr
              · exact ih.2 e hc herr
      | error e0 =>
          have hstep : LineageTool.processColumns targetFqn colTrace (c0 :: rest) =
              ((LineageTool.processColumns targetFqn colTrace rest).1,
                (targetFqn, "Could not trace column " ++ c0 ++ ": " ++ e0) ::
                  (LineageTool.processColumns targetFqn colTrace rest).2) := by
            rw [processColumns_cons, htr]
          rw [hstep]
          constructor
          · constructor
            · rintro ⟨v, hv⟩
              rcases ih.1.mp ⟨v, hv⟩ with ⟨hc, hp⟩
              exact ⟨List.mem_cons_of_mem c0 hc, hp⟩
            · rintro ⟨hc, s2, hok, hne⟩
              rcases List.mem_cons.mp hc with rfl | hc
              · rw [htr] at hok
                cases hok
              · exact ih.1.mpr ⟨hc, s2, hok, hne⟩
          · intro e hc herr
            rcases List.mem_cons.mp hc with rfl | hc
            · refine ⟨"Could not trace column " ++ c ++ ": " ++ e0,
                List.mem_cons_self _ _, ("Could not trace column ").data,
                (": " ++ e0).data, ?_⟩
              simp [String.data_append]
            · rcases ih.2 e hc herr with ⟨msg, hmem, pre, post, hdata⟩
              exact ⟨msg, List.mem_cons_of_mem _ hmem, pre, post, hdata⟩

/-- C9 (witness): tracing two columns where the first fails and the second
succeeds; the second is still recorded, and the failure leaves an error entry
under the target FQN whose message contains the failing column's name. -/
theorem c9_per_column_isolation_witness :
    (∃ v, ("good", v) ∈
        (LineageTool.processColumns "db.s.target"
            (fun col => if col = "bad" then Except.error "boom" else Except.ok ["db.s.base.a"])
            ["bad", "good"]).1) ∧
      (∃ msg, ("db.s.target", msg) ∈
          (LineageTool.processColumns "db.s.target"
              (fun col => if col = "bad" then Except.error "boom" else Except.ok ["db.s.base.a"])
              ["bad", "good"]).2 ∧
        ∃ pre post, msg.data = pre ++ ("bad").data ++ post) := by
  constructor
  · exact
      (c9_per_column_isolation "db.s.target"
            (fun col => if col = "bad" then Except.error "boom" else Except.ok ["db.s.base.a"])
            ["bad", "good"] "good").1.mpr
        ⟨by decide, ["db.s.base.a"], rfl, by decide⟩
  · exact
      (c9_per_column_isolation "db.s.target"
            (fun col => if col = "bad" then Except.error "boom" else Except.ok ["db.s.base.a"])
            ["bad", "good"] "bad").2 "boom" (by decide) rfl

/-- Auxiliary for C6: the FQN part list always ends with the table's own
name when that name is non-empty. -/
theorem fqnParts_snoc (t : LineageTool.TableExpr) (dDb dSch : Option String)
    (h : t.name ≠ "") :
    LineageTool.fqnParts t dDb dSch =
      ((LineageTool.pyOrStr t.catalog dDb).toList ++
          (LineageTool.pyOrStr t.db dSch).toList).filter (fun p => p ≠ "") ++ [t.name] := by
  unfold LineageTool.fqnParts
  have hfm :
      ([LineageTool.pyOrStr t.catalog dDb, LineageTool.pyOrStr t.db dSch,
          some t.name]).filterMap id =
        (LineageTool.pyOrStr t.catalog dDb).toList ++
          (LineageTool.pyOrStr t.db dSch).toList ++ [t.name] := by
    cases LineageTool.pyOrStr t.catalog dDb <;> cases LineageTool.pyOrStr t.db dSch <;> rfl
  rw [hfm, List.append_assoc, List.filter_append]
  simp [h]

/-- Auxiliary for C6: joining a part list that ends in `n` yields either `n`
itself (single part) or a string containing a dot. -/
theorem joinDot_snoc (l : List String) (n : String) :
    joinDot (l ++ [n]) = n ∨ '.' ∈ (joinDot (l ++ [n])).data := by
  cases l with
  | nil => exact Or.inl rfl
  | cons p ps =>
      right
      cases hps : ps ++ [n] with
      | nil => exact absurd hps (by simp)
      | cons q rest =>
          rw [show (p :: ps) ++ [n] = p :: (ps ++ [n]) from rfl, hps]
          exact dot_mem_joinDot p q rest

/-- Auxiliary for C6: every transitively reachable table is among the table
references collected by `find_all(exp.Table)`. -/
theorem inScope_mem_allTables {o : LineageTool.OptSelect} {t : LineageTool.TableExpr}
    (h : LineageTool.InScope o t) : t ∈ o.allTables := by
  induction h with
  | ofMain hm => exact List.mem_append_left _ hm
  | ofCte _ hc _ ht _ =>
      exact List.mem_append_right _ (List.mem_flatMap.mpr ⟨_, hc, ht⟩)

/-- C6: under SQL-identifier well-formedness (CTE aliases contain no dot,
table references have non-empty names), the `depends_on` list recorded for a
statement never contains any of the statement's CTE aliases, and it contains
the FQN of every base table transitively reachable through the statement's
CTE chains. -/
theorem c6_depends_on_invariant (o : LineageTool.OptSelect) (dDb dSch : Option String)
    (hAliases : ∀ a ∈ o.cteNames, '.' ∉ a.data)
    (hNames : ∀ t ∈ o.allTables, t.name ≠ "") :
    (∀ a ∈ o.cteNames, a ∉ LineageTool.dependsOn o dDb dSch) ∧
      (∀ t, LineageTool.InScope o t → t.name ∉ o.cteNames →
        LineageTool.getTableFqn t dDb dSch ∈ LineageTool.dependsOn o dDb dSch) := by
  constructor
  · intro a ha hmem
    rw [LineageTool.dependsOn, mem_sortStrs, List.mem_dedup] at hmem
    rcases List.mem_map.mp hmem with ⟨t, htf, hfq⟩
    rcases List.mem_filter.mp htf with ⟨hall, hpred⟩
    have hnot : t.name ∉ o.cteNames := by simpa using hpred
    have hname : t.name ≠ "" := hNames t hall
    rw [LineageTool.getTableFqn, fqnParts_snoc t dDb dSch hname] at hfq
    rcases joinDot_snoc (((LineageTool.pyOrStr t.catalog dDb).toList ++
        (LineageTool.pyOrStr t.db dSch).toList).filter (fun p => p ≠ "")) t.name with
      heq | hdot
    · rw [heq] at hfq
      exact hnot (hfq ▸ ha)
    · rw [hfq] at hdot
      exact hAliases a ha hdot
  · intro t hsc hnot
    rw [LineageTool.dependsOn, mem_sortStrs, List.mem_dedup]
    exact List.mem_map.mpr
      ⟨t, List.mem_filter.mpr ⟨inScope_mem_allTables hsc, by simpa using hnot⟩, rfl⟩

/-- C6 (witness): `CREATE TABLE ... AS WITH x AS (SELECT ... FROM base)
SELECT ... FROM x` with defaults `db`/`s`: the CTE alias `x` is not in
`depends_on`, while the base table reached through the CTE chain is. -/
theorem c6_depends_on_invariant_witness :
    "x" ∉ LineageTool.dependsOn
        ⟨[⟨"x", [⟨"", "", "base"⟩]⟩], [⟨"", "", "x"⟩], []⟩ (some "db") (some "s") ∧
      "db.s.base" ∈ LineageTool.dependsOn
        ⟨[⟨"x", [⟨"", "", "base"⟩]⟩], [⟨"", "", "x"⟩], []⟩ (some "db") (some "s") := by
  have h := c6_depends_on_invariant ⟨[⟨"x", [⟨"", "", "base"⟩]⟩], [⟨"", "", "x"⟩], []⟩
    (some "db") (some "s") (by decide) (by decide)
  constructor
  · exact h.1 "x" (by decide)
  · have hmem := h.2 ⟨"", "", "base"⟩
      (@LineageTool.InScope.ofCte ⟨[⟨"x", [⟨"", "", "base"⟩]⟩], [⟨"", "", "x"⟩], []⟩
        ⟨"", "", "x"⟩ ⟨"", "", "base"⟩ ⟨"x", [⟨"", "", "base"⟩]⟩
        (LineageTool.InScope.ofMain (by decide)) (by decide) rfl (by decide))
      (by decide)
    have : LineageTool.getTableFqn ⟨"", "", "base"⟩ (some "db") (some "s") = "db.s.base" := by
      decide
    rwa [this] at hmem

section DialectRoundTrip

open GpDialect

/-- Auxiliary: the csv tail parser stops on any continuation that does not
begin with a comma. -/
theorem parseIdentCsvRest_stop (t : List Tok) (ht : t.head? ≠ some Tok.tCOMMA) :
    parseIdentCsvRest t = ([], t) := by
  cases t with
  | nil => rfl
  | cons h r =>
      cases h
      case tCOMMA => exact absurd rfl ht
      all_goals rfl

/-- Auxiliary: parsing back a generated identifier csv tail. -/
theorem parseIdentCsvRest_gen (xs : List String) (t : List Tok)
    (ht : t.head? ≠ some Tok.tCOMMA) :
    parseIdentCsvRest (genIdentCsvTail xs ++ t) = (xs, t) := by
  induction xs with
  | nil => simpa [genIdentCsvTail] using parseIdentCsvRest_stop t ht
  | cons x xs ih => simp [genIdentCsvTail, parseIdentCsvRest, ih]

/-- Auxiliary: parsing back a generated identifier csv. -/
theorem parseIdentCsv_gen (xs : List String) (t : List Tok) (hne : xs ≠ [])
    (ht : t.head? ≠ some Tok.tCOMMA) :
    parseIdentCsv (genIdentCsv xs ++ t) = some (xs, t) := by
  cases xs with
  | nil => exact absurd rfl hne
  | cons x xs =>
      simp [genIdentCsv, parseIdentCsv, parseIdentCsvRest_gen xs t ht]

/-- Auxiliary: parsing back a generated parenthesised column tuple. -/
theorem parseParenIdents_gen (cols : List String) (t : List Tok) (hne : cols ≠ []) :
    parseParenIdents (Tok.tLPAREN :: (genIdentCsv cols ++ (Tok.tRPAREN :: t))) =
      some (cols, t) := by
  have h := parseIdentCsv_gen cols (Tok.tRPAREN :: t) hne (by simp)
  simp [parseParenIdents, h]

/-- Auxiliary: parsing back a generated optional order clause (with nothing
after it). -/
theorem parseOrderClause_gen (o : Option (List String))
    (ho : ∀ os, o = some os → os ≠ []) :
    parseOrderClause (genOrder o) = some (o, []) := by
  cases o with
  | none => rfl
  | some os =>
      have h := parseIdentCsv_gen os [] (ho os rfl) (by simp)
      rw [List.append_nil] at h
      simp [genOrder, parseOrderClause, h]

/-- Auxiliary: parsing back a generated distribution clause body, for the two
documented clause forms. -/
theorem parseDistBody_gen (d : DistProp) (hcarried : DistCarried d)
    (hcols : ∀ cols, d.columns = some cols → cols ≠ [])
    (hrand : d.kind = DistKind.distRandomly → d.columns = none)
    (ho : ∀ os, d.order = some os → os ≠ []) :
    parseDistBody (genDistBody d) = some (d, []) := by
  rcases d with ⟨kind, columns, order⟩
  cases kind with
  | distRandomly =>
      have hc : columns = none := hrand rfl
      subst hc
      simp [genDistBody, parseDistBody, parseOrderClause_gen order ho]
  | distBy =>
      have hc : columns ≠ none := by
        rcases hcarried with ⟨-, hc⟩ | hk
        · exact hc
        · cases hk
      rcases columns with - | cols
      · exact absurd rfl hc
      · have hcne : cols ≠ [] := hcols cols rfl
        have hparen := parseParenIdents_gen cols (genOrder order) hcne
        have horder := parseOrderClause_gen order ho
        simp only [genDistBody]
        rw [show Tok.tBY :: ((Tok.tLPAREN :: (genIdentCsv cols ++ [Tok.tRPAREN])) ++
            genOrder order) =
          Tok.tBY :: (Tok.tLPAREN :: (genIdentCsv cols ++ (Tok.tRPAREN :: genOrder order)))
          from by simp]
        simp [parseDistBody, hparen, horder]

/-- Auxiliary: the column-definition csv tail stops on any continuation that
does not begin with a comma. -/
theorem parseColDefsRest_stop (t : List Tok) (ht : t.head? ≠ some Tok.tCOMMA) :
    parseColDefsRest t = ([], t) := by
  cases t with
  | nil => rfl
  | cons h r =>
      cases h
      case tCOMMA => exact absurd rfl ht
      all_goals rfl

/-- Auxiliary: parsing back a generated column-definition csv tail. -/
theorem parseColDefsRest_gen (xs : List (String × String)) (t : List Tok)
    (ht : t.head? ≠ some Tok.tCOMMA) :
    parseColDefsRest (genColDefsTail xs ++ t) = (xs, t) := by
  induction xs with
  | nil => simpa [genColDefsTail] using parseColDefsRest_stop t ht
  | cons x xs ih =>
      rcases x with ⟨n, ty⟩
      simp [genColDefsTail, parseColDefsRest, ih]

/-- Auxiliary: parsing back a generated column-definition list. -/
theorem parseColDefs_gen (xs : List (String × String)) (t : List Tok) (hne : xs ≠ [])
    (ht : t.head? ≠ some Tok.tCOMMA) :
    parseColDefs (genColDefs xs ++ t) = some (xs, t) := by
  cases xs with
  | nil => exact absurd rfl hne
  | cons x xs =>
      rcases x with ⟨n, ty⟩
      simp [genColDefs, parseColDefs, parseColDefsRest_gen xs t ht]

/-- Auxiliary: the storage-option csv tail stops on any continuation that
does not begin with a comma. -/
theorem parseKvCsvRest_stop (t : List Tok) (ht : t.head? ≠ some Tok.tCOMMA) :
    parseKvCsvRest t = ([], t) := by
  cases t with
  | nil => rfl
  | cons h r =>
      cases h
      case tCOMMA => exact absurd rfl ht
      all_goals rfl

/-- Auxiliary: parsing back a generated storage-option csv tail. -/
theorem parseKvCsvRest_gen (xs : List (String × String)) (t : List Tok)
    (ht : t.head? ≠ some Tok.tCOMMA) :
    parseKvCsvRest (genKvCsvTail xs ++ t) = (xs, t) := by
  induction xs with
  | nil => simpa [genKvCsvTail] using parseKvCsvRest_stop t ht
  | cons x xs ih =>
      rcases x with ⟨k, v⟩
      simp [genKvCsvTail, parseKvCsvRest, ih]

/-- Auxiliary: parsing back a generated storage-option list. -/
theorem parseKvCsv_gen (xs : List (String × String)) (t : List Tok) (hne : xs ≠ [])
    (ht : t.head? ≠ some Tok.tCOMMA) :
    parseKvCsv (genKvCsv xs ++ t) = some (xs, t) := by
  cases xs with
  | nil => exact absurd rfl hne
  | cons x xs =>
      rcases x with ⟨k, v⟩
      simp [genKvCsv, parseKvCsv, parseKvCsvRest_gen xs t ht]

/-- Auxiliary: the optional `WITH` clause parser reports absence on any token
stream not starting with `WITH`. -/
theorem parseWithOpts_stop (t : List Tok) (ht : t.head? ≠ some Tok.tWITH) :
    parseWithOpts t = some (none, t) := by
  cases t with
  | nil => rfl
  | cons h r =>
      cases h
      case tWITH => exact absurd rfl ht
      all_goals rfl

end DialectRoundTrip

section DialectWf

open GpDialect

/-- Auxiliary: a successful identifier csv parse yields a non-empty list. -/
theorem parseIdentCsv_ne {ts : List Tok} {xs : List String} {r : List Tok}
    (hp : parseIdentCsv ts = some (xs, r)) : xs ≠ [] := by
  unfold parseIdentCsv at hp
  split at hp
  · cases hp
    simp
  · cases hp

/-- Auxiliary: a successful parenthesised tuple parse yields a non-empty
column list. -/
theorem parseParenIdents_ne {ts : List Tok} {xs : List String} {r : List Tok}
    (hp : parseParenIdents ts = some (xs, r)) : xs ≠ [] := by
  unfold parseParenIdents at hp
  split at hp
  · split at hp
    · rename_i heq
      cases hp
      exact parseIdentCsv_ne heq
    · cases hp
  · cases hp

/-- Auxiliary: a parsed order clause never stores an empty column list. -/
theorem parseOrderClause_wf {ts : List Tok} {o : Option (List String)} {r : List Tok}
    (hp : parseOrderClause ts = some (o, r)) : ∀ os, o = some os → os ≠ [] := by
  unfold parseOrderClause at hp
  split at hp
  · split at hp
    · split at hp
      · rename_i heq
        cases hp
        intro os hos
        cases hos
        exact parseIdentCsv_ne heq
      · cases hp
    · cases hp
  · cases hp
    intro os hos
    cases hos

/-- Auxiliary: shape invariants of every parsed distribution property. -/
theorem parseDistBody_wf {ts : List Tok} {d : DistProp} {r : List Tok}
    (hp : parseDistBody ts = some (d, r)) :
    (∀ cols, d.columns = some cols → cols ≠ []) ∧
      (d.kind = DistKind.distRandomly → d.columns = none) ∧
      (∀ os, d.order = some os → os ≠ []) := by
  unfold parseDistBody at hp
  split at hp
  · split at hp
    · rename_i heqParen
      split at hp
      · rename_i heqOrder
        cases hp
        refine ⟨?_, ?_, parseOrderClause_wf heqOrder⟩
        · intro cols2 hc
          cases hc
          exact parseParenIdents_ne heqParen
        · intro hk
          cases hk
      · cases hp
    · cases hp
  · split at hp
    · rename_i heqOrder
      cases hp
      refine ⟨?_, fun _ => rfl, parseOrderClause_wf heqOrder⟩
      intro cols2 hc
      cases hc
    · cases hp
  · split at hp
    · rename_i heqOrder
      cases hp
      refine ⟨?_, ?_, parseOrderClause_wf heqOrder⟩
      · intro cols2 hc
        cases hc
      · intro hk
        cases hk
    · cases hp

/-- Auxiliary: a successful column-definition parse yields a non-empty list. -/
theorem parseColDefs_ne {ts : List Tok} {xs : List (String × String)} {r : List Tok}
    (hp : parseColDefs ts = some (xs, r)) : xs ≠ [] := by
  unfold parseColDefs at hp
  split at hp
  · cases hp
    simp
  · cases hp

/-- Auxiliary: a successful storage-option csv parse yields a non-empty
list. -/
theorem parseKvCsv_ne {ts : List Tok} {xs : List (String × String)} {r : List Tok}
    (hp : parseKvCsv ts = some (xs, r)) : xs ≠ [] := by
  unfold parseKvCsv at hp
  split at hp
  · cases hp
    simp
  · cases hp

/-- Auxiliary: a parsed optional `WITH` clause never stores an empty option
list. -/
theorem parseWithOpts_wf {ts : List Tok} {w : Option (List (String × String))} {r : List Tok}
    (hp : parseWithOpts ts = some (w, r)) : ∀ kvs, w = some kvs → kvs ≠ [] := by
  unfold parseWithOpts at hp
  split at hp
  · split at hp
    · rename_i heq
      cases hp
      intro kvs hk
      cases hk
      exact parseKvCsv_ne heq
    · cases hp
  · cases hp
    intro kvs hk
    cases hk

/-- Auxiliary: every AST produced by whole-statement parsing is
well-formed. -/
theorem parseCreate_wf {toks : List Tok} {ast : CreateStmt}
    (hp : parseCreate toks = some ast) : WfCreate ast := by
  unfold parseCreate at hp
  split at hp
  · split at hp
    · rename_i heqCd
      split at hp
      · rename_i heqW
        split at hp
        · split at hp
          · rename_i heqD
            cases hp
            exact ⟨parseColDefs_ne heqCd, parseWithOpts_wf heqW, by
              intro d2 hd2
              cases hd2
              exact parseDistBody_wf heqD⟩
          · cases hp
        · cases hp
          exact ⟨parseColDefs_ne heqCd, parseWithOpts_wf heqW, by
            intro d2 hd2
            cases hd2⟩
        · cases hp
      · cases hp
    · cases hp
  · cases hp

end DialectWf

section RoundTripMain

open GpDialect

/-- Generation followed by parsing is the identity on well-formed ASTs whose
distribution clause (when present) is of one of the two documented forms. -/
theorem genCreate_parse (ast : CreateStmt) (hwf : WfCreate ast)
    (hdist : ∀ d, ast.dist = some d → DistCarried d) :
    parseCreate (genCreate ast) = some ast := by
  rcases ast with ⟨tbl, cds, w, dist⟩
  rcases hwf with ⟨hcds, hw, hd⟩
  cases w with
  | none =>
      cases dist with
      | none =>
          have hcd := parseColDefs_gen cds [Tok.tRPAREN] hcds (by simp)
          simp only [genCreate, List.append_assoc, List.cons_append, List.nil_append,
            List.append_nil]
          simp [parseCreate, hcd, parseWithOpts]
      | some d =>
          have hcd := parseColDefs_gen cds
            (Tok.tRPAREN :: Tok.tDISTRIBUTED :: genDistBody d) hcds (by simp)
          have hwo := parseWithOpts_stop (Tok.tDISTRIBUTED :: genDistBody d) (by simp)
          have hdb := parseDistBody_gen d (hdist d rfl) (hd d rfl).1 (hd d rfl).2.1
            (hd d rfl).2.2
          simp only [genCreate, genDist, List.append_assoc, List.cons_append,
            List.nil_append, List.append_nil]
          simp [parseCreate, hcd, hwo, hdb]
  | some kvs =>
      cases dist with
      | none =>
          have hkv := parseKvCsv_gen kvs [Tok.tRPAREN] (hw kvs rfl) (by simp)
          have hcd := parseColDefs_gen cds
            (Tok.tRPAREN :: Tok.tWITH :: Tok.tLPAREN :: (genKvCsv kvs ++ [Tok.tRPAREN]))
            hcds (by simp)
          simp only [genCreate, List.append_assoc, List.cons_append, List.nil_append,
            List.append_nil]
          simp [parseCreate, hcd, parseWithOpts, hkv]
      | some d =>
          have hkv := parseKvCsv_gen kvs
            (Tok.tRPAREN :: Tok.tDISTRIBUTED :: genDistBody d) (hw kvs rfl) (by simp)
          have hcd := parseColDefs_gen cds
            (Tok.tRPAREN :: Tok.tWITH :: Tok.tLPAREN ::
              (genKvCsv kvs ++ (Tok.tRPAREN :: Tok.tDISTRIBUTED :: genDistBody d)))
            hcds (by simp)
          have hdb := parseDistBody_gen d (hdist d rfl) (hd d rfl).1 (hd d rfl).2.1
            (hd d rfl).2.2
          simp only [genCreate, genDist, List.append_assoc, List.cons_append,
            List.nil_append, List.append_nil]
          simp [parseCreate, hcd, parseWithOpts, hkv, hdb]

end RoundTripMain

/-- C4: for every token stream that parses to a CREATE TABLE statement
carrying a distribution clause of one of the two documented forms —
`DISTRIBUTED BY (cols)` or `DISTRIBUTED RANDOMLY`, with or without an
unrelated storage-option clause — generating SQL from the parsed AST and
parsing that output again yields exactly the original AST:
`parse (generate (parse text)) = parse text`. -/
theorem c4_dialect_roundtrip (text : List GpDialect.Tok) (ast : GpDialect.CreateStmt)
    (d : GpDialect.DistProp) (hp : GpDialect.parseCreate text = some ast)
    (hdist : ast.dist = some d) (hform : GpDialect.DistCarried d) :
    GpDialect.parseCreate (GpDialect.genCreate ast) = GpDialect.parseCreate text := by
  rw [hp]
  refine genCreate_parse ast (parseCreate_wf hp) ?_
  intro d2 hd2
  rw [hdist] at hd2
  cases hd2
  exact hform

/-- C4 (witness): `CREATE TABLE sales (id INT) WITH (appendonly = true)
DISTRIBUTED BY (id, sale_date)` — parse, generate, reparse is stable. -/
theorem c4_dialect_roundtrip_witness :
    GpDialect.parseCreate
        (GpDialect.genCreate
          ⟨"sales", [("id", "INT")], some [("appendonly", "true")],
            some ⟨GpDialect.DistKind.distBy, some ["id", "sale_date"], none⟩⟩) =
      GpDialect.parseCreate
        [GpDialect.Tok.tCREATE, GpDialect.Tok.tTABLE, GpDialect.Tok.tIdent "sales",
          GpDialect.Tok.tLPAREN, GpDialect.Tok.tIdent "id", GpDialect.Tok.tIdent "INT",
          GpDialect.Tok.tRPAREN, GpDialect.Tok.tWITH, GpDialect.Tok.tLPAREN,
          GpDialect.Tok.tIdent "appendonly", GpDialect.Tok.tEQ, GpDialect.Tok.tIdent "true",
          GpDialect.Tok.tRPAREN, GpDialect.Tok.tDISTRIBUTED, GpDialect.Tok.tBY,
          GpDialect.Tok.tLPAREN, GpDialect.Tok.tIdent "id", GpDialect.Tok.tCOMMA,
          GpDialect.Tok.tIdent "sale_date", GpDialect.Tok.tRPAREN] :=
  c4_dialect_roundtrip _
    ⟨"sales", [("id", "INT")], some [("appendonly", "true")],
      some ⟨GpDialect.DistKind.distBy, some ["id", "sale_date"], none⟩⟩
    ⟨GpDialect.DistKind.distBy, some ["id", "sale_date"], none⟩
    (by decide) rfl (Or.inl ⟨rfl, fun h => nomatch h⟩)

end Claims
